import Mathlib

/-!
# A verification model of the godex DEX reader

This file gives a shallow embedding, in Lean, of the godex library (an
Android DEX container reader written in Go) and proves properties of the
embedded definitions.  Byte buffers are modelled as `List Nat`; Go's
unsigned 32-bit arithmetic is modelled with explicit `% 2^32`; operations
that can make the Go program panic (out-of-range indexing or slicing, or
calling a `nil` function value) are modelled with `Option`, where `none`
stands for a crash.  Each definition mirrors one function of the source
(`pack.go` and `dex.go`); the mapping is recorded in the doc comments.
-/

namespace Godex

/-- Go's `uint32` modulus. -/
def U32 : Nat := 2 ^ 32

/-- The error values observable from the library.  The source only ever
constructs the two `errors.New` values in `pack.go` (`"Not implemented
type "` in `Unpack` and `"Invalid field"` in `unpackByteArray`) and the
I/O errors of `os.Open`/`ioutil.ReadAll`.  The remaining constructors
(`EBadMagic`, `EBadEndian`, `EBadULEB`, `EUnknownOpcode`) are modelled
from the spec, which names them; they are needed to state the claims
about header rejection, over-long ULEB128 and unknown opcodes, and the
theorems below settle whether the code ever produces them. -/
inductive GoError where
  | notImplemented   -- errors.New("Not implemented type ") in Unpack
  | invalidField     -- errors.New("Invalid field") in unpackByteArray
  | ioError          -- an error from os.Open / ioutil.ReadAll
  | EBadMagic        -- modelled from the spec; not present in the source
  | EBadEndian       -- modelled from the spec; not present in the source
  | EBadULEB         -- modelled from the spec; not present in the source
  | EUnknownOpcode   -- modelled from the spec; not present in the source
  deriving DecidableEq, Repr

/-- `binary.LittleEndian.Uint16(b[off:off+2])`; `none` when the slice
would be out of range (a Go panic). -/
def leUint16 (b : List Nat) (off : Nat) : Option Nat :=
  match b.get? off, b.get? (off + 1) with
  | some b0, some b1 => some (b0 + b1 * 256)
  | _, _ => none

/-- `binary.LittleEndian.Uint32(b[off:off+4])`; `none` when the slice
would be out of range (a Go panic). -/
def leUint32 (b : List Nat) (off : Nat) : Option Nat :=
  match b.get? off, b.get? (off + 1), b.get? (off + 2), b.get? (off + 3) with
  | some b0, some b1, some b2, some b3 =>
      some (b0 + b1 * 256 + b2 * 65536 + b3 * 16777216)
  | _, _, _, _ => none

/-- The loop of `uleb128` in `pack.go`:

```
i := 0; value := 0
for ; i < 5 && data[i]&0x80 == 0x80; i++ {
    value += (uint32(data[i]&0x7F) << (7 * i))
}
value += (uint32(data[i]) << (7 * i))
i++
return value, i
```

The `fuel` argument is `5 - i`, so the `fuel = 0` case is the `i = 5`
exit of the loop, after which the final statement still reads `data[5]`
(a sixth byte) and shifts it by 35 bits, which in Go's `uint32`
arithmetic contributes `0`.  Reading past the end of `data` is a Go
panic, modelled as `none`. -/
def uleb128Aux (data : List Nat) : Nat → Nat → Nat → Option (Nat × Nat)
  | i, value, 0 =>
      match data.get? i with
      | none => none
      | some b => some ((value + b * 2 ^ (7 * i)) % U32, i + 1)
  | i, value, fuel + 1 =>
      match data.get? i with
      | none => none
      | some b =>
          if b.land 0x80 = 0x80 then
            uleb128Aux data (i + 1) ((value + b.land 0x7F * 2 ^ (7 * i)) % U32) fuel
          else
            some ((value + b * 2 ^ (7 * i)) % U32, i + 1)

/-- `uleb128(data []byte) (uint32, uint32)` in `pack.go`.  The function
`unpackUleb128` in the same file repeats the identical loop verbatim (it
only differs in storing the value through `reflect.Value.SetUint`). -/
def uleb128 (data : List Nat) : Option (Nat × Nat) :=
  uleb128Aux data 0 0 5

/-- Modelled from the spec: the repository contains no ULEB128 encoder,
only the decoder, so the round-trip claim needs the standard ULEB128
encoding of the spec ("7 payload bits per byte, continuation bit in the
MSB").  Five bytes of fuel suffice for every `u32` value. -/
def encodeUleb128Aux : Nat → Nat → List Nat
  | _, 0 => []
  | v, fuel + 1 =>
      if v < 0x80 then [v] else (v % 0x80 + 0x80) :: encodeUleb128Aux (v / 0x80) fuel

/-- Modelled from the spec: ULEB128 encoding of a `u32` value. -/
def encodeUleb128 (v : Nat) : List Nat :=
  encodeUleb128Aux v 5

/-- `str(b []byte) (string, uint32)` in `pack.go`:

```
i := uint32(0)
length, offset := uleb128(b[0:])
i += offset
return string(b[i : i+length]), i
```

Go strings are byte strings, modelled here as `List Nat`.  The slice
`b[i : i+length]` panics when it reaches past the end of the buffer. -/
def str (b : List Nat) : Option (List Nat × Nat) := do
  let (length, offset) ← uleb128 b
  if offset + length ≤ b.length then
    some ((b.drop offset).take length, offset)
  else
    none

/-! ## The descriptor-driven unpacker (`pack.go`) -/

/-- The value stored in one struct field reachable through `reflect`.
Numeric fields (targets of `val.SetUint`) are `vNat`, fixed byte arrays
are `vBytes`, and fields the codecs never touch (pointers and nested
structs, tagged `pack:"-"`) are `vPtr`. -/
inductive FieldVal where
  | vNat (n : Nat)
  | vBytes (bs : List Nat)
  | vPtr
  deriving DecidableEq, Repr

/-- `PackFunc`: a codec takes the remaining bytes and the destination
field and returns the consumed length, an error value and the new field
contents.  `none` is a Go panic inside the codec. -/
def Codec : Type := List Nat → FieldVal → Option (Nat × Option GoError × FieldVal)

/-- `unpackUleb128` in `pack.go`: the same loop as `uleb128`, storing
the decoded value with `val.SetUint` and returning a `nil` error. -/
def unpackUleb128C : Codec := fun data _ =>
  (uleb128 data).map (fun r => (r.2, none, FieldVal.vNat r.1))

/-- `unpackUint` in `pack.go`. -/
def unpackUintC : Codec := fun data _ =>
  (leUint32 data 0).map (fun x => (4, none, FieldVal.vNat x))

/-- `unpackUshort` in `pack.go`. -/
def unpackUshortC : Codec := fun data _ =>
  (leUint16 data 0).map (fun x => (2, none, FieldVal.vNat x))

/-- `unpackByteArray` in `pack.go`: for an array destination it copies
`data[0:val.Len()]` (a panic when `data` is shorter than the array) and
returns the array length; for any other kind it returns
`(0, errors.New("Invalid field"))`. -/
def unpackByteArrayC : Codec := fun data v =>
  match v with
  | FieldVal.vBytes bs =>
      if bs.length ≤ data.length then
        some (bs.length, none, FieldVal.vBytes (data.take bs.length))
      else
        none
  | _ => some (0, some GoError.invalidField, v)

/-- The registry `packs` after package initialisation: the four
`RegisterPack` calls at the top of `pack.go`. -/
def builtinPacks : List (String × Codec) :=
  [("uleb128", unpackUleb128C), ("uint", unpackUintC),
   ("ushort", unpackUshortC), ("byte", unpackByteArrayC)]

/-- `Unpack(b []byte, o interface{}) (int, error)` in `pack.go`.  A
record is its ordered list of `(pack tag, field value)` pairs.

```
for i := 0; i < st.NumField(); i++ {
    tag := ...
    if tag == "-" { continue }
    if p, ok := packs[tag]; ok {
        length, _ := p(b[offset:], field)   // codec error discarded
        offset += int(length)
        continue
    }
    err := errors.New("Not implemented type ")
    if err != nil { return offset, err }
}
return offset, nil
```

The returned record carries the field values after the call (in Go the
struct is mutated in place).  Slicing `b[offset:]` with `offset` past
the end of `b` is a panic. -/
def UnpackGo (registry : List (String × Codec)) (b : List Nat) :
    Nat → List (String × FieldVal) → Option (Nat × Option GoError × List (String × FieldVal))
  | offset, [] => some (offset, none, [])
  | offset, (tag, v) :: rest =>
      if tag = "-" then
        (UnpackGo registry b offset rest).map (fun r => (r.1, r.2.1, (tag, v) :: r.2.2))
      else
        match registry.find? (fun p => p.1 == tag) with
        | some p =>
            if offset ≤ b.length then
              match p.2 (b.drop offset) v with
              | none => none
              | some (len, _err, v') =>
                  (UnpackGo registry b (offset + len) rest).map
                    (fun r => (r.1, r.2.1, (tag, v') :: r.2.2))
            else none
        | none => some (offset, some GoError.notImplemented, (tag, v) :: rest)

/-- Read the numeric value of the `k`-th field of a record (the typed
projection of a `reflect` field). -/
def natAt (r : List (String × FieldVal)) (k : Nat) : Nat :=
  match r.get? k with
  | some (_, FieldVal.vNat n) => n
  | _ => 0

/-- Read the byte-array value of the `k`-th field of a record. -/
def bytesAt (r : List (String × FieldVal)) (k : Nat) : List Nat :=
  match r.get? k with
  | some (_, FieldVal.vBytes bs) => bs
  | _ => []

/-! ## The DEX object model (`dex.go`) -/

/-- `DEX_FILE_MAGIC` in `dex.go`. -/
def DEX_FILE_MAGIC : List Nat := [0x64, 0x65, 0x78, 0x0a, 0x30, 0x33, 0x35, 0x00]

/-- `REVERSE_ENDIAN_CONSTANT` in `dex.go`. -/
def REVERSE_ENDIAN_CONSTANT : Nat := 0x78563412

/-- The `Header` struct of `dex.go`. -/
structure Header where
  Magic           : List Nat
  Checksum        : Nat
  Signature       : List Nat
  FileSize        : Nat
  HeaderSize      : Nat
  EndianTag       : Nat
  LinkSize        : Nat
  LinkOff         : Nat
  MapOff          : Nat
  StringIdsSize   : Nat
  StringIdsOffset : Nat
  TypeIdsSize     : Nat
  TypeIdsOffset   : Nat
  ProtosSize      : Nat
  ProtosOffset    : Nat
  FieldsSize      : Nat
  FieldsOffset    : Nat
  MethodIdsSize   : Nat
  MethodIdsOffset : Nat
  ClassDefsSize   : Nat
  ClassDefsOffset : Nat
  DataSize        : Nat
  DataOffset      : Nat
  deriving DecidableEq, Repr

/-- The pack descriptor of `Header`: one `(tag, zero value)` pair per
struct field, in declaration order.  The two byte arrays carry their
declared lengths (8 and 20). -/
def headerFields : List (String × FieldVal) :=
  [("byte", FieldVal.vBytes (List.replicate 8 0)),
   ("uint", FieldVal.vNat 0),
   ("byte", FieldVal.vBytes (List.replicate 20 0)),
   ("uint", FieldVal.vNat 0), ("uint", FieldVal.vNat 0), ("uint", FieldVal.vNat 0),
   ("uint", FieldVal.vNat 0), ("uint", FieldVal.vNat 0), ("uint", FieldVal.vNat 0),
   ("uint", FieldVal.vNat 0), ("uint", FieldVal.vNat 0), ("uint", FieldVal.vNat 0),
   ("uint", FieldVal.vNat 0), ("uint", FieldVal.vNat 0), ("uint", FieldVal.vNat 0),
   ("uint", FieldVal.vNat 0), ("uint", FieldVal.vNat 0), ("uint", FieldVal.vNat 0),
   ("uint", FieldVal.vNat 0), ("uint", FieldVal.vNat 0), ("uint", FieldVal.vNat 0),
   ("uint", FieldVal.vNat 0), ("uint", FieldVal.vNat 0)]

/-- Typed projection of an unpacked `Header` record. -/
def mkHeader (r : List (String × FieldVal)) : Header :=
  ⟨bytesAt r 0, natAt r 1, bytesAt r 2, natAt r 3, natAt r 4, natAt r 5,
   natAt r 6, natAt r 7, natAt r 8, natAt r 9, natAt r 10, natAt r 11,
   natAt r 12, natAt r 13, natAt r 14, natAt r 15, natAt r 16, natAt r 17,
   natAt r 18, natAt r 19, natAt r 20, natAt r 21, natAt r 22⟩

/-- `DEX.readHeader`: `Unpack(d.b, &d.header)`, returning the header and
the error from `Unpack`. -/
def readHeaderT (b : List Nat) : Option (Header × Option GoError) :=
  (UnpackGo builtinPacks b 0 headerFields).map (fun r => (mkHeader r.2.2, r.2.1))

/-- `TypeId` in `dex.go` (the `dex` back-pointer is dropped; rendering
functions take the container explicitly). -/
structure TypeId where
  DescriptorIdx : Nat
  deriving DecidableEq, Repr

/-- `ProtoIdItem` in `dex.go`. -/
structure ProtoIdItem where
  ShortyIdx        : Nat
  ReturnTypeIdx    : Nat
  ParametersOffset : Nat
  deriving DecidableEq, Repr

/-- `FieldIdItem` in `dex.go`. -/
structure FieldIdItem where
  ClassIdx : Nat
  TypeIdx  : Nat
  NameIdx  : Nat
  deriving DecidableEq, Repr

/-- `MethodIdItem` in `dex.go`. -/
structure MethodIdItem where
  ClassIdx : Nat
  ProtoIdx : Nat
  NameIdx  : Nat
  deriving DecidableEq, Repr

/-- Pack descriptor of `TypeId`: `dex *DEX pack:"-"`, `DescriptorIdx
uint32 pack:"uint"`. -/
def typeIdFields : List (String × FieldVal) :=
  [("-", FieldVal.vPtr), ("uint", FieldVal.vNat 0)]

/-- Pack descriptor of `ProtoIdItem`. -/
def protoIdFields : List (String × FieldVal) :=
  [("-", FieldVal.vPtr), ("uint", FieldVal.vNat 0), ("uint", FieldVal.vNat 0),
   ("uint", FieldVal.vNat 0)]

/-- Pack descriptor of `FieldIdItem`. -/
def fieldIdFields : List (String × FieldVal) :=
  [("-", FieldVal.vPtr), ("ushort", FieldVal.vNat 0), ("ushort", FieldVal.vNat 0),
   ("uint", FieldVal.vNat 0)]

/-- Pack descriptor of `MethodIdItem`. -/
def methodIdFields : List (String × FieldVal) :=
  [("-", FieldVal.vPtr), ("ushort", FieldVal.vNat 0), ("ushort", FieldVal.vNat 0),
   ("uint", FieldVal.vNat 0)]

/-- The common shape of `readTypes`, `readPrototypes`, `readFields` and
`readMethods`: `size` iterations, the `i`-th at `off + stride * i`:

```
item := X{dex: d}
if _, err := Unpack(d.b[s:], &item); err != nil { return err }
d.Xs[i] = item
```

Slicing `d.b[s:]` past the end of the buffer is a panic.  On a non-nil
error the loader returns it at once (the Go slice keeps the elements
already stored; only the error is observable through `Parse`). -/
def readTableLoop {A : Type} (b : List Nat) (off stride : Nat)
    (fields : List (String × FieldVal)) (extract : List (String × FieldVal) → A) :
    Nat → Nat → Option (List A × Option GoError)
  | 0, _ => some ([], none)
  | n + 1, i =>
      let s := off + stride * i
      if s ≤ b.length then
        match UnpackGo builtinPacks (b.drop s) 0 fields with
        | none => none
        | some (_, some e, _) => some ([], some e)
        | some (_, none, r) =>
            (readTableLoop b off stride fields extract n (i + 1)).map
              (fun p => (extract r :: p.1, p.2))
      else none

/-- `DEX.readTypes`. -/
def readTypesT (b : List Nat) (h : Header) : Option (List TypeId × Option GoError) :=
  readTableLoop b h.TypeIdsOffset 4 typeIdFields
    (fun r => ⟨natAt r 1⟩) h.TypeIdsSize 0

/-- `DEX.readPrototypes` (stride `0xc`). -/
def readPrototypesT (b : List Nat) (h : Header) : Option (List ProtoIdItem × Option GoError) :=
  readTableLoop b h.ProtosOffset 12 protoIdFields
    (fun r => ⟨natAt r 1, natAt r 2, natAt r 3⟩) h.ProtosSize 0

/-- `DEX.readFields` (stride `0x8`). -/
def readFieldsT (b : List Nat) (h : Header) : Option (List FieldIdItem × Option GoError) :=
  readTableLoop b h.FieldsOffset 8 fieldIdFields
    (fun r => ⟨natAt r 1, natAt r 2, natAt r 3⟩) h.FieldsSize 0

/-- `DEX.readMethods` (stride `0x8`). -/
def readMethodsT (b : List Nat) (h : Header) : Option (List MethodIdItem × Option GoError) :=
  readTableLoop b h.MethodIdsOffset 8 methodIdFields
    (fun r => ⟨natAt r 1, natAt r 2, natAt r 3⟩) h.MethodIdsSize 0

/-- `DEX.readStrings`:

```
var data = d.b[d.header.StringIdsOffset:]
for i := 0; i < int(d.header.StringIdsSize); i++ {
    string_data_offset := binary.LittleEndian.Uint32(data[i*4 : i*4+4])
    s, _ := str(d.b[string_data_offset:])
    d.Strings[i] = s
}
```

The function always returns a `nil` error; out-of-range slicing is a
panic. -/
def readStringsT (b : List Nat) (h : Header) : Option (List (List Nat)) :=
  if h.StringIdsOffset ≤ b.length then
    let data := b.drop h.StringIdsOffset
    (List.range h.StringIdsSize).mapM (fun i => do
      let string_data_offset ← leUint32 data (i * 4)
      if string_data_offset ≤ b.length then
        (str (b.drop string_data_offset)).map Prod.fst
      else none)
  else none

/-! ## The class loader (`DEX.Parse` in `dex.go`) -/

/-- `EncodedField` in `dex.go`: the `dex` pointer and the resolved
`Field` are `pack:"-"`; `FieldIdxDiff` and `AccessFlags` are
`pack:"uleb128"`. -/
structure EncodedField where
  FieldIdxDiff : Nat
  AccessFlags  : Nat
  Field        : FieldIdItem
  deriving DecidableEq, Repr

/-- `EncodedMethod` in `dex.go`. -/
structure EncodedMethod where
  MethodIdxDiff : Nat
  AccessFlags   : Nat
  CodeOffset    : Nat
  Method        : MethodIdItem
  deriving DecidableEq, Repr

/-- Pack descriptor of `EncodedField`. -/
def encodedFieldFields : List (String × FieldVal) :=
  [("-", FieldVal.vPtr), ("-", FieldVal.vPtr),
   ("uleb128", FieldVal.vNat 0), ("uleb128", FieldVal.vNat 0)]

/-- Pack descriptor of `EncodedMethod`. -/
def encodedMethodFields : List (String × FieldVal) :=
  [("-", FieldVal.vPtr), ("-", FieldVal.vPtr),
   ("uleb128", FieldVal.vNat 0), ("uleb128", FieldVal.vNat 0),
   ("uleb128", FieldVal.vNat 0)]

/-- The body of the `staticfields` / `instancefields` codecs registered
in `DEX.Parse` (the two closures are textually identical):

```
offset := 0
field_idx := uint64(0)
for j := uint64(0); j < size; j++ {
    ef := EncodedField{dex: dex}
    length, _ := Unpack(data[offset:], &ef)   // error discarded
    field_idx += uint64(ef.FieldIdxDiff)
    ef.Field = dex.Fields[field_idx]          // panic when out of range
    offset += length
    list[j] = ef
}
return uint(offset), nil
```

Returns the decoded list and the consumed byte count. -/
def encodedFieldsLoop (flds : List FieldIdItem) (data : List Nat) :
    Nat → Nat → Nat → Option (List EncodedField × Nat)
  | _, offset, 0 => some ([], offset)
  | fieldIdx, offset, n + 1 =>
      match UnpackGo builtinPacks data offset encodedFieldFields with
      | none => none
      | some (offset', _err, r) =>
          let idx := fieldIdx + natAt r 2
          match flds.get? idx with
          | none => none
          | some f =>
              (encodedFieldsLoop flds data idx offset' n).map
                (fun p => (⟨natAt r 2, natAt r 3, f⟩ :: p.1, p.2))

/-- The body of the `directmethods` / `virtualmethods` codecs registered
in `DEX.Parse`; same shape as the field loops with a three-field
`EncodedMethod` record and `dex.Methods[method_idx]`. -/
def encodedMethodsLoop (mths : List MethodIdItem) (data : List Nat) :
    Nat → Nat → Nat → Option (List EncodedMethod × Nat)
  | _, offset, 0 => some ([], offset)
  | methodIdx, offset, n + 1 =>
      match UnpackGo builtinPacks data offset encodedMethodFields with
      | none => none
      | some (offset', _err, r) =>
          let idx := methodIdx + natAt r 2
          match mths.get? idx with
          | none => none
          | some m =>
              (encodedMethodsLoop mths data idx offset' n).map
                (fun p => (⟨natAt r 2, natAt r 3, natAt r 4, m⟩ :: p.1, p.2))

/-- `ClassDataItem` in `dex.go`: the four ULEB128 sizes and then the
four lists. -/
structure ClassDataItem where
  StaticFieldSize    : Nat
  InstanceFieldSize  : Nat
  DirectMethodsSize  : Nat
  VirtualMethodsSize : Nat
  StaticFields       : List EncodedField
  InstanceFields     : List EncodedField
  DirectMethods      : List EncodedMethod
  VirtualMethods     : List EncodedMethod
  deriving DecidableEq, Repr

/-- The Go zero value of `ClassDataItem` (left in place when
`class_data_off == 0`). -/
def ClassDataItem.zero : ClassDataItem := ⟨0, 0, 0, 0, [], [], [], []⟩

/-- The first four fields of the `ClassDataItem` descriptor (the four
ULEB128 counts); the remaining four fields use the per-class registered
codecs, modelled by the explicit loops below. -/
def classDataCountFields : List (String × FieldVal) :=
  [("uleb128", FieldVal.vNat 0), ("uleb128", FieldVal.vNat 0),
   ("uleb128", FieldVal.vNat 0), ("uleb128", FieldVal.vNat 0)]

/-- `Unpack(b[off:], &class_def_item.ClassData)` as performed inside the
`classdata` codec: the four ULEB128 counts, then the four list codecs,
each starting with a fresh running index `0` and receiving the bytes
after the previous codec's consumption.  Both return values of this
`Unpack` call are discarded in the source (`_, _ =`), so only the item
is returned; a panic anywhere is `none`. -/
def unpackClassDataItem (flds : List FieldIdItem) (mths : List MethodIdItem)
    (b : List Nat) (off : Nat) : Option ClassDataItem := do
  let (oA, _eA, rA) ← UnpackGo builtinPacks b off classDataCountFields
  let sfSize := natAt rA 0
  let ifSize := natAt rA 1
  let dmSize := natAt rA 2
  let vmSize := natAt rA 3
  let (sfL, c1) ← encodedFieldsLoop flds (b.drop oA) 0 0 sfSize
  let (ifL, c2) ← encodedFieldsLoop flds (b.drop (oA + c1)) 0 0 ifSize
  let (dmL, c3) ← encodedMethodsLoop mths (b.drop (oA + c1 + c2)) 0 0 dmSize
  let (vmL, _c4) ← encodedMethodsLoop mths (b.drop (oA + c1 + c2 + c3)) 0 0 vmSize
  some ⟨sfSize, ifSize, dmSize, vmSize, sfL, ifL, dmL, vmL⟩

/-- `EncodedValue` in `dex.go`: all three fields are `pack:"-"`; the
`staticvalues` codec stores `EncodedValue{dex: dex}` without ever
setting `ValueType` or `Data`, so elements keep the Go zero values. -/
structure EncodedValue where
  ValueType : Nat
  Data      : List Nat
  deriving DecidableEq, Repr

/-- The `staticvalues` codec registered in `DEX.Parse`: it reads the
`static_values_off` `u32`; when zero it returns length 4.  Otherwise it
decodes the ULEB128 array size at that offset — overwriting `length`
with the ULEB128 byte count, which is what it returns — and for each of
`size` elements calls `packs["ubyte"]`.  No codec was ever registered
under `"ubyte"`, so the map yields a nil `PackFunc` and the first
element call panics; only `size == 0` completes.  Returns (consumed
length, values). -/
def staticvaluesStep (b data : List Nat) : Option (Nat × List EncodedValue) := do
  let svOff ← leUint32 data 0
  if svOff = 0 then
    some (4, [])
  else if svOff ≤ b.length then do
    let (size, ulebLen) ← uleb128 (b.drop svOff)
    if size = 0 then some (ulebLen, []) else none
  else none

/-- `ClassDefItem` in `dex.go` (part_000 layout): six `uint` fields,
then `ClassData pack:"classdata"` and `StaticValues
pack:"staticvalues"`. -/
structure ClassDefItem where
  ClassIdx          : Nat
  AccessFlags       : Nat
  SuperclassIdx     : Nat
  InterfacesOffset  : Nat
  SourceFileIdx     : Nat
  AnnotationsOffset : Nat
  ClassData         : ClassDataItem
  StaticValues      : List EncodedValue
  deriving DecidableEq, Repr

/-- The six `uint` fields at the head of the `ClassDefItem` descriptor
(the `dex` pointer is `pack:"-"`). -/
def classDefUintFields : List (String × FieldVal) :=
  [("-", FieldVal.vPtr), ("uint", FieldVal.vNat 0), ("uint", FieldVal.vNat 0),
   ("uint", FieldVal.vNat 0), ("uint", FieldVal.vNat 0), ("uint", FieldVal.vNat 0),
   ("uint", FieldVal.vNat 0)]

/-- `Unpack(b[s:], &class_def_item)` with the per-class codecs
registered by `DEX.Parse`: six `uint` fields, then the `classdata`
codec (read `class_data_off`; when non-zero, side-load the
`ClassDataItem` at that absolute offset, discarding errors), then the
`staticvalues` codec. -/
def unpackClassDefItem (flds : List FieldIdItem) (mths : List MethodIdItem)
    (b : List Nat) (s : Nat) : Option ClassDefItem := do
  let (o6, _e6, r6) ← UnpackGo builtinPacks b s classDefUintFields
  -- the classdata codec: packs["uint"] into a local offset variable
  if o6 ≤ b.length then do
    let cdo ← leUint32 (b.drop o6) 0
    let cd ← if cdo = 0 then some ClassDataItem.zero
             else unpackClassDataItem flds mths b cdo
    -- the staticvalues codec, on the bytes after the classdata field
    if o6 + 4 ≤ b.length then do
      let (_svLen, svs) ← staticvaluesStep b (b.drop (o6 + 4))
      some ⟨natAt r6 1, natAt r6 2, natAt r6 3, natAt r6 4, natAt r6 5, natAt r6 6,
            cd, svs⟩
    else none
  else none

/-- The class-definition loop of `DEX.Parse`: `ClassDefsSize` items of
32 bytes each at `ClassDefsOffset`; the `Unpack` error is assigned to
`err` but never checked. -/
def classLoop (flds : List FieldIdItem) (mths : List MethodIdItem)
    (b : List Nat) (clsOff : Nat) : Nat → Nat → Option (List ClassDefItem)
  | 0, _ => some []
  | n + 1, i => do
      let item ← unpackClassDefItem flds mths b (clsOff + 32 * i)
      let rest ← classLoop flds mths b clsOff n (i + 1)
      some (item :: rest)

/-- The `DEX` struct of `dex.go`. -/
structure DEXModel where
  b          : List Nat
  header     : Header
  Strings    : List (List Nat)
  Types      : List TypeId
  Prototypes : List ProtoIdItem
  Fields     : List FieldIdItem
  Methods    : List MethodIdItem
  Classes    : List ClassDefItem
  deriving DecidableEq, Repr

/-- The Go zero value of `Header`. -/
def Header.zero : Header :=
  ⟨List.replicate 8 0, 0, List.replicate 20 0, 0, 0, 0, 0, 0, 0, 0, 0, 0,
   0, 0, 0, 0, 0, 0, 0, 0, 0, 0, 0⟩

/-- `&DEX{b: b}`: the model before `Parse` runs. -/
def mkDEX (b : List Nat) : DEXModel :=
  ⟨b, Header.zero, [], [], [], [], [], []⟩

/-- `DEX.Parse`: the loaders run in order, each early-returning its
error; the class loop follows and `Parse` ends with `return nil`.  The
result pairs the object model at the point of return with the returned
error value. -/
def Parse (b : List Nat) : Option (DEXModel × Option GoError) := do
  let (h, e1) ← readHeaderT b
  let d1 : DEXModel := { mkDEX b with header := h }
  if e1.isSome then some (d1, e1) else do
  let strs ← readStringsT b h
  let d2 := { d1 with Strings := strs }
  let (tys, e2) ← readTypesT b h
  if e2.isSome then some ({ d2 with Types := tys }, e2) else do
  let d3 := { d2 with Types := tys }
  let (pts, e3) ← readPrototypesT b h
  if e3.isSome then some ({ d3 with Prototypes := pts }, e3) else do
  let d4 := { d3 with Prototypes := pts }
  let (flds, e4) ← readFieldsT b h
  if e4.isSome then some ({ d4 with Fields := flds }, e4) else do
  let d5 := { d4 with Fields := flds }
  let (mths, e5) ← readMethodsT b h
  if e5.isSome then some ({ d5 with Methods := mths }, e5) else do
  let d6 := { d5 with Methods := mths }
  let classes ← classLoop flds mths b h.ClassDefsOffset h.ClassDefsSize 0
  some ({ d6 with Classes := classes }, none)

/-- `Open(path string) (*DEX, error)` in `dex.go` (part_000): the
filesystem is a map from paths to file contents; `os.Open`/`ReadAll`
failure returns `(nil, err)`.  On success:

```
dex := &DEX{b: b}
dex.Parse()          // both return values discarded
return dex, nil
```

so the parse error is discarded and the returned error is always
`nil`. -/
def Open (fs : String → Option (List Nat)) (path : String) :
    Option (Option DEXModel × Option GoError) :=
  match fs path with
  | none => some (none, some GoError.ioError)
  | some bytes => (Parse bytes).map (fun p => (some p.1, none))

/-- `Open` as it appears in the other revision of `dex.go` shipped in
the repository (part_001): identical, except that it opens the
hard-coded name `"classes.dex"` — `os.Open("classes.dex")` — and
ignores its `path` argument.  (For inputs whose header has
`ClassDefsSize = 0` the two revisions' `Parse` functions coincide, so
the shared `Parse` model is used.) -/
def OpenAlt (fs : String → Option (List Nat)) (_path : String) :
    Option (Option DEXModel × Option GoError) :=
  match fs "classes.dex" with
  | none => some (none, some GoError.ioError)
  | some bytes => (Parse bytes).map (fun p => (some p.1, none))

/-! ## The bytecode disassembler (`dex.go`) -/

/-- `Instruction` in `dex.go`: mnemonic and the `Length` the decoding
loop adds to the byte cursor (after the 1-byte opcode). -/
structure Instruction where
  Name   : String
  Length : Int
  deriving DecidableEq, Repr

/-- The `instructions` map of `dex.go`, entry for entry (split into
slices of at most 40 entries; Go map literal keys are distinct, so an
association list is a faithful model). -/
def instructionTable0 : List (Nat × Instruction) :=
  [(0x00, ⟨"nop", 0⟩),
   (0x01, ⟨"move vA, vB", 1⟩),
   (0x02, ⟨"move/from16 vAA, vBBBB", 3⟩),
   (0x03, ⟨"move/16 vAAAA, vBBBB", 4⟩),
   (0x04, ⟨"move-wide vA, vB", 1⟩),
   (0x05, ⟨"move-wide/from16 vAA, vBBBB", 3⟩),
   (0x06, ⟨"move-wide/16 vAAAA, vBBBB", 4⟩),
   (0x07, ⟨"move-object vA, vB", 1⟩),
   (0x08, ⟨"move-object/from16 vAA, vBBBB", 3⟩),
   (0x09, ⟨"move-object/16 vAAAA, vBBBB", 4⟩),
   (0x0a, ⟨"move-result vAA", 1⟩),
   (0x0b, ⟨"move-result-wide vAA", 1⟩),
   (0x0c, ⟨"move-result-object vAA", 1⟩),
   (0x0d, ⟨"move-exception vAA", 1⟩),
   (0x0e, ⟨"return-void", 1⟩),
   (0x0f, ⟨"return vAA", 1⟩),
   (0x10, ⟨"return-wide vAA", 1⟩),
   (0x11, ⟨"return-object vAA", 1⟩),
   (0x12, ⟨"const/4 vA, #+B", 1⟩),
   (0x13, ⟨"const/16 vAA, #+BBBB", 3⟩),
   (0x14, ⟨"const vAA, #+BBBBBBBB", 5⟩),
   (0x15, ⟨"const/high16 vAA, #+BBBB0000", 5⟩),
   (0x16, ⟨"const-wide/16 vAA, #+BBBB", 3⟩),
   (0x17, ⟨"const-wide/32 vAA, #+BBBBBBBB", 5⟩),
   (0x18, ⟨"const-wide vAA, #+BBBBBBBBBBBBBBBB", 9⟩),
   (0x19, ⟨"const-wide/high16 vAA, #+BBBB000000000000", 9⟩),
   (0x1a, ⟨"const-string vAA, string@BBBB", 3⟩),
   (0x1b, ⟨"const-string/jumbo vAA, string@BBBBBBBB", 5⟩),
   (0x1c, ⟨"const-class vAA, type@BBBB", 3⟩),
   (0x1d, ⟨"monitor-enter vAA", 1⟩),
   (0x1e, ⟨"monitor-exit vAA", 1⟩),
   (0x1f, ⟨"check-cast vAA, type@BBBB", 3⟩),
   (0x20, ⟨"instance-of vA, vB, type@CCCC", 3⟩),
   (0x21, ⟨"array-length vA, vB", 1⟩),
   (0x22, ⟨"new-instance vAA, type@BBBB", 3⟩),
   (0x23, ⟨"new-array vA, vB, type@CCCC", 3⟩),
   (0x24, ⟨"filled-new-array \x7bName:vC, vD, vE, vF, vG\x7d, type@BBBB", -1⟩),
   (0x25, ⟨"filled-new-array/range \x7bName:vCCCC .. vNNNN\x7d, type@BBBB", -1⟩),
   (0x26, ⟨"fill-array-data vAA, +BBBBBBBB", -1⟩),
   (0x27, ⟨"throw vAA", 1⟩)]

def instructionTable1 : List (Nat × Instruction) :=
  [(0x28, ⟨"goto +AA", 1⟩),
   (0x29, ⟨"goto/16 +AAAA", 2⟩),
   (0x2a, ⟨"goto/32 +AAAAAAAA", 4⟩),
   (0x2b, ⟨"packed-switch vAA, +BBBBBBBB", -1⟩),
   (0x2c, ⟨"sparse-switch vAA, +BBBBBBBB", -1⟩),
   (0x2d, ⟨"cmpl-float vAA, vBB, vCC", 3⟩),
   (0x2e, ⟨"cmpg-float vAA, vBB, vCC", 3⟩),
   (0x2f, ⟨"cmpl-double vAA, vBB, vCC", 3⟩),
   (0x30, ⟨"cmplg-double vAA, vBB, vCC", 3⟩),
   (0x31, ⟨"cmp-long vAA, vBB, vCC", 3⟩),
   (0x32, ⟨"if-eq vA, vB, +CCCC", 3⟩),
   (0x33, ⟨"if-ne vA, vB, +CCCC", 3⟩),
   (0x34, ⟨"if-lt vA, vB, +CCCC", 3⟩),
   (0x35, ⟨"if-ge vA, vB, +CCCC", 3⟩),
   (0x36, ⟨"if-gt vA, vB, +CCCC", 3⟩),
   (0x37, ⟨"if-le vA, vB, +CCCC", 3⟩),
   (0x38, ⟨"if-eqz vAA, +BBBB", 3⟩),
   (0x39, ⟨"if-nez vAA, +BBBB", 3⟩),
   (0x3a, ⟨"if-ltz vAA, +BBBB", 3⟩),
   (0x3b, ⟨"if-gez vAA, +BBBB", 3⟩),
   (0x3c, ⟨"if-gtz vAA, +BBBB", 3⟩),
   (0x3d, ⟨"if-lez vAA, +BBBB", 3⟩),
   (0x44, ⟨"aget vAA, vBB, vCC", -1⟩),
   (0x45, ⟨"aget-wide vAA, vBB, vCC", -1⟩),
   (0x46, ⟨"aget-object vAA, vBB, vCC", -1⟩),
   (0x47, ⟨"aget-boolean vAA, vBB, vCC", -1⟩),
   (0x48, ⟨"aget-byte vAA, vBB, vCC", -1⟩),
   (0x49, ⟨"aget-char vAA, vBB, vCC", -1⟩),
   (0x4a, ⟨"aget-short vAA, vBB, vCC", -1⟩),
   (0x4b, ⟨"aput vAA, vBB, vCC", -1⟩),
   (0x4c, ⟨"aput-wide vAA, vBB, vCC", -1⟩),
   (0x4d, ⟨"aput-object vAA, vBB, vCC", -1⟩),
   (0x4e, ⟨"aput-boolean vAA, vBB, vCC", -1⟩),
   (0x4f, ⟨"aput-byte vAA, vBB, vCC", -1⟩),
   (0x50, ⟨"aput-char vAA, vBB, vCC", -1⟩),
   (0x51, ⟨"aput-short vAA, vBB, vCC", -1⟩),
   (0x52, ⟨"iget vA, vB, field@CCCC", 3⟩),
   (0x53, ⟨"iget-wide vA, vB, field@CCCC", 3⟩),
   (0x54, ⟨"iget-object vA, vB, field@CCCC", 3⟩),
   (0x55, ⟨"iget-boolean vA, vB, field@CCCC", 3⟩)]

def instructionTable2 : List (Nat × Instruction) :=
  [(0x56, ⟨"iget-byte vA, vB, field@CCCC", 3⟩),
   (0x57, ⟨"iget-char vA, vB, field@CCCC", 3⟩),
   (0x58, ⟨"iget-short vA, vB, field@CCCC", 3⟩),
   (0x59, ⟨"iput vA, vB, field@CCCC", 3⟩),
   (0x5a, ⟨"iput-wide vA, vB, field@CCCC", 3⟩),
   (0x5b, ⟨"iput-object vA, vB, field@CCCC", 3⟩),
   (0x5c, ⟨"iput-boolean vA, vB, field@CCCC", 3⟩),
   (0x5d, ⟨"iput-byte vA, vB, field@CCCC", 3⟩),
   (0x5e, ⟨"iput-char vA, vB, field@CCCC", 3⟩),
   (0x5f, ⟨"iput-short vA, vB, field@CCCC", 3⟩),
   (0x60, ⟨"sget vAA, field@BBBB", 3⟩),
   (0x61, ⟨"sget-wide vAA, field@BBBB", 3⟩),
   (0x62, ⟨"sget-object vAA, field@BBBB", 3⟩),
   (0x63, ⟨"sget-boolean vAA, field@BBBB", 3⟩),
   (0x64, ⟨"sget-byte vAA, field@BBBB", 3⟩),
   (0x65, ⟨"sget-char vAA, field@BBBB", 3⟩),
   (0x66, ⟨"sget-short vAA, field@BBBB", 3⟩),
   (0x67, ⟨"sput vAA, field@BBBB", 3⟩),
   (0x68, ⟨"sput-wide vAA, field@BBBB", 3⟩),
   (0x69, ⟨"sput-object vAA, field@BBBB", 3⟩),
   (0x6a, ⟨"sput-boolean vAA, field@BBBB", 3⟩),
   (0x6b, ⟨"sput-byte vAA, field@BBBB", 3⟩),
   (0x6c, ⟨"sput-char vAA, field@BBBB", 3⟩),
   (0x6d, ⟨"sput-short vAA, field@BBBB", 3⟩),
   (0x6e, ⟨"invoke-virtual \x7bName:vC, vD, vE, vF, vG\x7d, meth@BBBB", 5⟩),
   (0x6f, ⟨"invoke-super \x7bName:vC, vD, vE, vF, vG\x7d, meth@BBBB", 5⟩),
   (0x70, ⟨"invoke-direct \x7bName:vC, vD, vE, vF, vG\x7d, meth@BBBB", 5⟩),
   (0x71, ⟨"invoke-static \x7bName:vC, vD, vE, vF, vG\x7d, meth@BBBB", 5⟩),
   (0x72, ⟨"invoke-interface \x7bName:vC, vD, vE, vF, vG\x7d, meth@BBBB", 5⟩),
   (0x74, ⟨"invoke-virtual/range \x7bName:vCCCC .. vNNNN\x7d, meth@BBBB", 5⟩),
   (0x75, ⟨"invoke-super/range \x7bName:vCCCC .. vNNNN\x7d, meth@BBBB", 5⟩),
   (0x76, ⟨"invoke-direct/range \x7bName:vCCCC .. vNNNN\x7d, meth@BBBB", 5⟩),
   (0x77, ⟨"invoke-static/range \x7bName:vCCCC .. vNNNN\x7d, meth@BBBB", 5⟩),
   (0x78, ⟨"invoke-interface/range \x7bName:vCCCC .. vNNNN\x7d, meth@BBBB", 5⟩),
   (0x7b, ⟨"neg-int vA, vB", 1⟩),
   (0x7c, ⟨"not-int vA, vB", 1⟩),
   (0x7d, ⟨"neg-long vA, vB", 1⟩),
   (0x7e, ⟨"not-long vA, vB", 1⟩),
   (0x7f, ⟨"neg-float vA, vB", 1⟩),
   (0x80, ⟨"neg-double vA, vB", 1⟩)]

def instructionTable3 : List (Nat × Instruction) :=
  [(0x81, ⟨"int-to-long vA, vB", 1⟩),
   (0x82, ⟨"int-to-float vA, vB", 1⟩),
   (0x83, ⟨"int-to-double vA, vB", 1⟩),
   (0x84, ⟨"long-to-int vA, vB", 1⟩),
   (0x85, ⟨"long-to-float vA, vB", 1⟩),
   (0x86, ⟨"long-to-double vA, vB", 1⟩),
   (0x87, ⟨"float-to-int vA, vB", 1⟩),
   (0x88, ⟨"float-to-long vA, vB", 1⟩),
   (0x89, ⟨"float-to-double vA, vB", 1⟩),
   (0x8a, ⟨"double-to-int vA, vB", 1⟩),
   (0x8b, ⟨"double-to-long vA, vB", 1⟩),
   (0x8c, ⟨"double-to-float vA, vB", 1⟩),
   (0x8d, ⟨"int-to-byte vA, vB", 1⟩),
   (0x8e, ⟨"int-to-char vA, vB", 1⟩),
   (0x8f, ⟨"int-to-short vA, vB", 1⟩),
   (0x90, ⟨"add-int vAA, vBB, vCC", 3⟩),
   (0x91, ⟨"sub-int vAA, vBB, vCC", 3⟩),
   (0x92, ⟨"mul-int vAA, vBB, vCC", 3⟩),
   (0x93, ⟨"div-int vAA, vBB, vCC", 3⟩),
   (0x94, ⟨"rem-int vAA, vBB, vCC", 3⟩),
   (0x95, ⟨"and-int vAA, vBB, vCC", 3⟩),
   (0x96, ⟨"or-int vAA, vBB, vCC", 3⟩),
   (0x97, ⟨"xor-int vAA, vBB, vCC", 3⟩),
   (0x98, ⟨"shl-int vAA, vBB, vCC", 3⟩),
   (0x99, ⟨"shr-int vAA, vBB, vCC", 3⟩),
   (0x9a, ⟨"ushr-int vAA, vBB, vCC", 3⟩),
   (0x9b, ⟨"add-long vAA, vBB, vCC", 3⟩),
   (0x9c, ⟨"sub-long vAA, vBB, vCC", 3⟩),
   (0x9d, ⟨"mul-long vAA, vBB, vCC", 3⟩),
   (0x9e, ⟨"div-long vAA, vBB, vCC", 3⟩),
   (0x9f, ⟨"rem-long vAA, vBB, vCC", 3⟩),
   (0xa0, ⟨"and-long vAA, vBB, vCC", 3⟩),
   (0xa1, ⟨"or-long vAA, vBB, vCC", 3⟩),
   (0xa2, ⟨"xor-long vAA, vBB, vCC", 3⟩),
   (0xa3, ⟨"shl-long vAA, vBB, vCC", 3⟩),
   (0xa4, ⟨"shr-long vAA, vBB, vCC", 3⟩),
   (0xa5, ⟨"ushr-long vAA, vBB, vCC", 3⟩),
   (0xa6, ⟨"add-float vAA, vBB, vCC", 3⟩),
   (0xa7, ⟨"sub-float vAA, vBB, vCC", 3⟩),
   (0xa8, ⟨"mul-float vAA, vBB, vCC", 3⟩)]

def instructionTable4 : List (Nat × Instruction) :=
  [(0xa9, ⟨"div-float vAA, vBB, vCC", 3⟩),
   (0xaa, ⟨"rem-float vAA, vBB, vCC", 3⟩),
   (0xab, ⟨"add-double vAA, vBB, vCC", 3⟩),
   (0xac, ⟨"sub-double vAA, vBB, vCC", 3⟩),
   (0xad, ⟨"mul-double vAA, vBB, vCC", 3⟩),
   (0xae, ⟨"div-double vAA, vBB, vCC", 3⟩),
   (0xaf, ⟨"rem-double vAA, vBB, vCC", 3⟩),
   (0xb0, ⟨"add-int/2addr vA, vB", 1⟩),
   (0xb1, ⟨"sub-int2addr vA, vB", 1⟩),
   (0xb2, ⟨"mul-int/2addr vA, vB", 1⟩),
   (0xb3, ⟨"div-int/2addr vA, vB", 1⟩),
   (0xb4, ⟨"rem-int/2addr vA, vB", 1⟩),
   (0xb5, ⟨"and-int/2addr vA, vB", 1⟩),
   (0xb6, ⟨"or-int/2addr vA, vB", 1⟩),
   (0xb7, ⟨"xor-int/2addr vA, vB", 1⟩),
   (0xb8, ⟨"shl-int/2addr vA, vB", 1⟩),
   (0xb9, ⟨"shr-int/2addr vA, vB", 1⟩),
   (0xba, ⟨"ushr-int/2addr vA, vB", 1⟩),
   (0xbb, ⟨"add-long/2addr vA, vB", 1⟩),
   (0xbc, ⟨"sub-long/2addr vA, vB", 1⟩),
   (0xbd, ⟨"mul-long/2addr vA, vB", 1⟩),
   (0xbe, ⟨"div-long/2addr vA, vB", 1⟩),
   (0xbf, ⟨"rem-long/2addr vA, vB", 1⟩),
   (0xc0, ⟨"and-long/2addr vA, vB", 1⟩),
   (0xc1, ⟨"or-long/2addr vA, vB", 1⟩),
   (0xc2, ⟨"xor-long/2addr vA, vB", 1⟩),
   (0xc3, ⟨"shl-long/2addr vA, vB", 1⟩),
   (0xc4, ⟨"shr-long/2addr vA, vB", 1⟩),
   (0xc5, ⟨"ushr-long/2addr vA, vB", 1⟩),
   (0xc6, ⟨"add-float/2addr vA, vB", 1⟩),
   (0xc7, ⟨"sub-float/2addr vA, vB", 1⟩),
   (0xc8, ⟨"mul-float/2addr vA, vB", 1⟩),
   (0xc9, ⟨"div-float/2addr vA, vB", 1⟩),
   (0xca, ⟨"rem-float/2addr vA, vB", 1⟩),
   (0xcb, ⟨"add-double/2addr vA, vB", 1⟩),
   (0xcc, ⟨"sub-double/2addr vA, vB", 1⟩),
   (0xcd, ⟨"mul-double/2addr vA, vB", 1⟩),
   (0xce, ⟨"div-double/2addr vA, vB", 1⟩),
   (0xcf, ⟨"rem-double/2addr vA, vB", 1⟩),
   (0xd0, ⟨"add-int/lit16 vA, vB, #+CCCC", 3⟩)]

def instructionTable5 : List (Nat × Instruction) :=
  [(0xd1, ⟨"rsub-int/lit16 vA, vB, #+CCCC", 3⟩),
   (0xd2, ⟨"mul-int/lit16 vA, vB, #+CCCC", 3⟩),
   (0xd3, ⟨"div-int/lit16 vA, vB, #+CCCC", 3⟩),
   (0xd4, ⟨"rem-int/lit16 vA, vB, #+CCCC", 3⟩),
   (0xd5, ⟨"and-int/lit16 vA, vB, #+CCCC", 3⟩),
   (0xd6, ⟨"or-int/lit16 vA, vB, #+CCCC", 3⟩),
   (0xd7, ⟨"xor-int/lit16 vA, vB, #+CCCC", 3⟩),
   (0xd8, ⟨"add-int/lit8 vAA, vBB, #+CC", 3⟩),
   (0xd9, ⟨"rsub-int/lit8 vAA, vBB, #+CC", 3⟩),
   (0xda, ⟨"mul-int/lit8 vAA, vBB, #+CC", 3⟩),
   (0xdb, ⟨"div-int/lit8 vAA, vBB, #+CC", 3⟩),
   (0xdc, ⟨"rem-int/lit8 vAA, vBB, #+CC", 3⟩),
   (0xdd, ⟨"and-int/lit8 vAA, vBB, #+CC", 3⟩),
   (0xde, ⟨"or-int/lit8 vAA, vBB, #+CC", 3⟩),
   (0xdf, ⟨"xor-int/lit8 vAA, vBB, #+CC", 3⟩),
   (0xe0, ⟨"shl-int/lit8 vAA, vBB, #+CC", 3⟩),
   (0xe1, ⟨"shr-int/lit8 vAA, vBB, #+CC", 3⟩),
   (0xe2, ⟨"ushr-int/lit8 vAA, vBB, #+CC", 3⟩)]

def instructionTable : List (Nat × Instruction) :=
  instructionTable0 ++ instructionTable1 ++ instructionTable2 ++ instructionTable3 ++ instructionTable4 ++ instructionTable5

/-- `instructions[code]`: map lookup. -/
def instructions (op : Nat) : Option Instruction :=
  (instructionTable.find? (fun p => p.1 == op)).map Prod.snd

/-- The symbolic suffix appended to a decoded instruction's printed
line, one constructor per branch of the `if` chain in
`EncodedMethod.Disassemble` (the branches only differ in the data they
format into the string). -/
inductive Suffix where
  | plain
  | methRef (methodIdx : Nat) (name : List Nat)           -- 0x6e-0x71, 0x72-0x74
  | typeRef (register typeIdx : Nat) (descr : List Nat)   -- 0x22
  | reg (register : Nat)                                  -- 0x39, 0x0a-0x0c
  | regEq (a b : Nat)                                     -- 0x07, 0x12
  | strRef (register stringIdx : Nat) (s : List Nat)      -- 0x1a
  deriving DecidableEq, Repr

/-- One printed instruction: opcode byte, mnemonic, suffix. -/
structure DecodedInsn where
  opcode : Nat
  name   : String
  suffix : Suffix
  deriving DecidableEq, Repr

/-- The suffix computation for one decoded instruction: the `if` chain
of `EncodedMethod.Disassemble`, entered with `offset` already advanced
past the opcode byte (`offset += 1` in the source).  Returns `none` for
a panic (out-of-range index while resolving the suffix), `some none`
for the `else` branch that prints "Invalid opcode" and breaks
(`instruction.Length == -1` and no special case applies), and
`some (some suffix)` when the loop continues. -/
def disasmStep (d : DEXModel) (code : Nat) (ins : Instruction) (offset1 : Nat) :
    Option (Option Suffix) :=
  if code = 0x6e ∨ code = 0x6f ∨ code = 0x70 ∨ code = 0x71 then do
    let methodIdx ← leUint16 d.b (offset1 + 1)
    let mi ← d.Methods.get? methodIdx
    let nm ← d.Strings.get? mi.NameIdx
    some (some (Suffix.methRef methodIdx nm))
  else if code = 0x72 ∨ code = 0x73 ∨ code = 0x74 then do
    let methodIdx ← leUint16 d.b (offset1 + 1)
    let mi ← d.Methods.get? methodIdx
    let nm ← d.Strings.get? mi.NameIdx
    some (some (Suffix.methRef methodIdx nm))
  else if code = 0x22 then do
    let register ← d.b.get? offset1
    let typeIdx ← leUint16 d.b (offset1 + 1)
    let t ← d.Types.get? typeIdx
    let descr ← d.Strings.get? t.DescriptorIdx
    some (some (Suffix.typeRef register typeIdx descr))
  else if code = 0x39 then do
    let register ← d.b.get? offset1
    some (some (Suffix.reg register))
  else if code = 0x07 then do
    let bb ← d.b.get? offset1
    some (some (Suffix.regEq (bb.land 0x0F) ((bb.land 0xF0) >>> 4)))
  else if code = 0x12 then do
    let bb ← d.b.get? offset1
    some (some (Suffix.regEq (bb.land 0x0F) ((bb.land 0xF0) >>> 4)))
  else if code = 0x0a ∨ code = 0x0b ∨ code = 0x0c then do
    let register ← d.b.get? offset1
    some (some (Suffix.reg register))
  else if code = 0x1a then do
    let register ← d.b.get? offset1
    let stringIdx ← leUint16 d.b (offset1 + 1)
    let s ← d.Strings.get? stringIdx
    some (some (Suffix.strRef register stringIdx s))
  else if ins.Length ≠ -1 then
    some (some Suffix.plain)
  else
    some none   -- "Invalid opcode" printed; break

/-- The decoding loop of `EncodedMethod.Disassemble`:

```
for offset < int(m.CodeOffset)+16+(size*2) {
    instruction_code := m.dex.b[offset]
    if instruction, ok := instructions[instruction_code]; ok {
        str := ...; offset += 1
        ... suffix branches (disasmStep) ...
        offset += instruction.Length
        fmt.Println(str)
        continue
    }
    break
}
return nil
```

`fuel` bounds the iteration count; the offset grows by at least one
byte per iteration, so `fuel = stop` never runs out when the loop is
entered at a non-negative offset.  All `break` paths fall through to
`return nil`: the lines printed so far are the only output and the
returned error is always `nil`. -/
def disasmLoop (d : DEXModel) (stop : Nat) :
    Nat → Nat → List DecodedInsn → Option (List DecodedInsn × Option GoError)
  | 0, offset, acc =>
      if offset < stop then none else some (acc.reverse, none)
  | fuel + 1, offset, acc =>
      if offset < stop then
        match d.b.get? offset with
        | none => none
        | some code =>
            match instructions code with
            | none => some (acc.reverse, none)   -- opcode not in the table: break
            | some ins =>
                match disasmStep d code ins (offset + 1) with
                | none => none
                | some none => some (acc.reverse, none)
                | some (some suffix) =>
                    disasmLoop d stop fuel (offset + 1 + ins.Length.toNat)
                      (⟨code, ins.Name, suffix⟩ :: acc)
      else some (acc.reverse, none)

/-- `EncodedMethod.Disassemble`: skip 12 bytes of the code-item header,
read the 4-byte `size` (`insns_size` in code units), then run the
decoding loop until `CodeOffset + 16 + size*2`.  Returns the printed
instruction lines and the returned error (always `nil` in the source;
`none` outside means a panic). -/
def Disassemble (d : DEXModel) (m : EncodedMethod) : Option (List DecodedInsn × Option GoError) := do
  let offset := m.CodeOffset + 12
  let size ← leUint32 d.b offset
  let start := offset + 4
  let stop := m.CodeOffset + 16 + size * 2
  disasmLoop d stop stop start []

/-! ## Concrete inputs used by the theorems -/

/-- A 112-byte image of zero bytes: exactly one header, all eight magic
bytes zero, every table size zero. -/
def zeroImage : List Nat := List.replicate 112 0

/-- A 112-byte image whose `endian_tag` field (bytes 40–43) holds the
little-endian encoding of `0x78563412`, all other bytes zero. -/
def endianImage : List Nat :=
  List.replicate 40 0 ++ [0x12, 0x34, 0x56, 0x78] ++ List.replicate 68 0

/-- A filesystem with two files: `a.dex` (a one-byte file) and
`classes.dex` (the zero image). -/
def fsEx : String → Option (List Nat) :=
  fun p => if p = "a.dex" then some [1] else
           if p = "classes.dex" then some zeroImage else none

/-- Ten distinct field-id items, `NameIdx` = position. -/
def fldsEx : List FieldIdItem := (List.range 10).map (fun n => ⟨0, 0, n⟩)

/-- A class-data item: counts 3, 2, 0, 0; static `field_idx_diff`s
`3, 1, 5` (flags 0); instance diffs `2, 1`. -/
def cdBytes : List Nat := [3, 2, 0, 0, 3, 0, 1, 0, 5, 0, 2, 0, 1, 0]

/-- The decoded form of `cdBytes` over `fldsEx`: static absolute
indices 3, 4, 9 and instance absolute indices 2, 3. -/
def cdEx : ClassDataItem :=
  ⟨3, 2, 0, 0,
   [⟨3, 0, ⟨0, 0, 3⟩⟩, ⟨1, 0, ⟨0, 0, 4⟩⟩, ⟨5, 0, ⟨0, 0, 9⟩⟩],
   [⟨2, 0, ⟨0, 0, 2⟩⟩, ⟨1, 0, ⟨0, 0, 3⟩⟩], [], []⟩

/-- Pack descriptor of `EncodedValue`: all three fields (`dex`,
`ValueType`, `Data`) are `pack:"-"`. -/
def encodedValueFields : List (String × FieldVal) :=
  [("-", FieldVal.vPtr), ("-", FieldVal.vNat 0), ("-", FieldVal.vBytes [])]

/-- A code item at offset 0: 12 header bytes, `insns_size = 1`, and the
insns bytes `0x3E 0x00` — `0x3E` is not an assigned opcode in the
instruction table. -/
def exB : List Nat := List.replicate 12 0 ++ [1, 0, 0, 0] ++ [0x3e, 0]

/-- A method at code offset 0 over `exB`. -/
def mEx : EncodedMethod := ⟨0, 0, 0, ⟨0, 0, 0⟩⟩

/-! ## Helper lemmas -/

theorem land_0x80_of_lt (v : Nat) (hv : v < 128) : v.land 0x80 = 0 := by
  revert v hv; decide

theorem land_0x80_add (r : Nat) (hr : r < 128) : (r + 128).land 0x80 = 0x80 := by
  revert r hr; decide

theorem land_0x7F_add (r : Nat) (hr : r < 128) : (r + 128).land 0x7F = r := by
  revert r hr; decide

theorem encodeUleb128Aux_succ_lt (v fuel : Nat) (h : v < 0x80) :
    encodeUleb128Aux v (fuel + 1) = [v] := by
  rw [encodeUleb128Aux, if_pos h]

theorem encodeUleb128Aux_succ_ge (v fuel : Nat) (h : ¬ v < 0x80) :
    encodeUleb128Aux v (fuel + 1) = (v % 0x80 + 0x80) :: encodeUleb128Aux (v / 0x80) fuel := by
  rw [encodeUleb128Aux, if_neg h]

/-- The final byte of a canonical encoding: decoding at position `i`
over `pre ++ [v]` with `v < 128` terminates, consuming one byte. -/
theorem uleb128Aux_last (v i value : Nat) (pre : List Nat) (hv : v < 128)
    (hi : i + 1 ≤ 5) (hpre : pre.length = i)
    (hbound : value + v * 2 ^ (7 * i) < U32) :
    uleb128Aux (pre ++ [v]) i value (5 - i) =
      some (value + v * 2 ^ (7 * i), i + 1) := by
  have h5 : 5 - i = (4 - i) + 1 := by omega
  rw [h5]
  have hget : (pre ++ [v]).get? i = some v := by
    rw [← hpre]; exact List.get?_concat_length pre v
  simp only [uleb128Aux, hget, land_0x80_of_lt v hv]
  simp [Nat.mod_eq_of_lt hbound]

/-- Decoding a canonical ULEB128 encoding: at position `i`, with the
partial value `value` accumulated so far, decoding
`encodeUleb128Aux v (fuel+1)` yields `value + v · 2^(7i)` and consumes
exactly the encoded length. -/
theorem uleb128Aux_encodeAux :
    ∀ fuel v i value (pre : List Nat),
      v < 2 ^ (7 * (fuel + 1)) →
      i + (fuel + 1) ≤ 5 →
      pre.length = i →
      value + v * 2 ^ (7 * i) < U32 →
      uleb128Aux (pre ++ encodeUleb128Aux v (fuel + 1)) i value (5 - i) =
        some (value + v * 2 ^ (7 * i), i + (encodeUleb128Aux v (fuel + 1)).length) := by
  intro fuel
  induction fuel with
  | zero =>
      intro v i value pre hv hi hpre hbound
      have hv128 : v < 128 := by
        have : (2 : Nat) ^ (7 * (0 + 1)) = 128 := by norm_num
        omega
      rw [encodeUleb128Aux_succ_lt v 0 hv128]
      rw [uleb128Aux_last v i value pre hv128 (by omega) hpre hbound]
      simp
  | succ f ih =>
      intro v i value pre hv hi hpre hbound
      by_cases hv128 : v < 128
      · rw [encodeUleb128Aux_succ_lt v (f + 1) hv128]
        rw [uleb128Aux_last v i value pre hv128 (by omega) hpre hbound]
        simp
      · rw [encodeUleb128Aux_succ_ge v (f + 1) hv128]
        have hr : v % 128 < 128 := Nat.mod_lt _ (by norm_num)
        have h5 : 5 - i = (4 - i) + 1 := by omega
        have hget : (pre ++ ((v % 0x80 + 0x80) :: encodeUleb128Aux (v / 0x80) (f + 1))).get? i
            = some (v % 0x80 + 0x80) := by
          rw [List.get?_append_right (by omega), hpre]
          simp
        rw [h5]
        simp only [uleb128Aux, hget]
        rw [if_pos (land_0x80_add (v % 128) hr)]
        rw [land_0x7F_add (v % 128) hr]
        -- the new accumulated value stays below 2^32
        have hmono : value + v % 128 * 2 ^ (7 * i) ≤ value + v * 2 ^ (7 * i) :=
          Nat.add_le_add_left (Nat.mul_le_mul_right _ (Nat.mod_le v 128)) value
        rw [Nat.mod_eq_of_lt (lt_of_le_of_lt hmono hbound)]
        -- rewrite the data as (pre ++ [first byte]) ++ rest
        have hassoc :
            pre ++ ((v % 0x80 + 0x80) :: encodeUleb128Aux (v / 0x80) (f + 1))
              = (pre ++ [v % 0x80 + 0x80]) ++ encodeUleb128Aux (v / 0x80) (f + 1) := by
          simp
        rw [hassoc]
        have hpow : (2 : Nat) ^ (7 * (i + 1)) = 2 ^ (7 * i) * 128 := by
          have : 7 * (i + 1) = 7 * i + 7 := by ring
          rw [this, pow_add]; norm_num
        have hsplit : v % 128 + 128 * (v / 128) = v := Nat.mod_add_div v 128
        have key : value + v % 128 * 2 ^ (7 * i) + v / 128 * 2 ^ (7 * (i + 1))
            = value + v * 2 ^ (7 * i) := by
          rw [hpow]
          conv_rhs => rw [← hsplit]
          ring
        have hdiv : v / 128 < 2 ^ (7 * (f + 1)) := by
          apply Nat.div_lt_of_lt_mul
          have : 7 * (f + 1 + 1) = 7 * (f + 1) + 7 := by ring
          rw [this, pow_add] at hv
          simpa [mul_comm] using hv
        have h4 : 4 - i = 5 - (i + 1) := by omega
        rw [h4]
        rw [ih (v / 128) (i + 1) (value + v % 128 * 2 ^ (7 * i))
              (pre ++ [v % 0x80 + 0x80]) hdiv (by omega) (by simp [hpre])
              (by rw [key]; exact hbound)]
        rw [key]
        simp
        omega

/-- The consumed count of the decoding loop never exceeds six: the
loop index reaches at most 5 and the final read adds one. -/
theorem uleb128Aux_consumed_le (fuel : Nat) :
    ∀ i value data, i + fuel = 5 →
      (uleb128Aux data i value fuel).elim True (fun r => r.2 ≤ 6) := by
  induction fuel with
  | zero =>
      intro i value data hi
      simp only [uleb128Aux]
      cases data.get? i
      · simp
      · simp; omega
  | succ f ih =>
      intro i value data hi
      simp only [uleb128Aux]
      cases data.get? i with
      | none => simp
      | some b =>
          simp only
          by_cases hb : b.land 0x80 = 0x80
          · rw [if_pos hb]
            exact ih (i + 1) _ data (by omega)
          · rw [if_neg hb]
            simp; omega

/-! ## C5: ULEB128 round-trip and golden values -/

/-- C5.  For every `u32` value `v`, encoding `v` as ULEB128 (the
encoder is modelled from the spec; the source has only a decoder) and
then decoding with `uleb128` yields `v` and a consumed count equal to
the encoded length; and the decoder maps the five golden inputs of the
spec to the stated values and consumed counts. -/
theorem uleb128_roundtrip :
    (∀ v : Nat, v < U32 →
        uleb128 (encodeUleb128 v) = some (v, (encodeUleb128 v).length)) ∧
    uleb128 [0x00] = some (0, 1) ∧
    uleb128 [0x01] = some (1, 1) ∧
    uleb128 [0x7F] = some (127, 1) ∧
    uleb128 [0x80, 0x7F] = some (16256, 2) ∧
    uleb128 [0xE5, 0x8E, 0x26] = some (624485, 3) := by
  refine ⟨?_, by decide, by decide, by decide, by decide, by decide⟩
  intro v hv
  have h := uleb128Aux_encodeAux 4 v 0 0 [] (by
      have : U32 ≤ 2 ^ (7 * (4 + 1)) := by norm_num [U32]
      omega)
    (by omega) rfl (by simpa [U32] using hv)
  simpa [uleb128, encodeUleb128] using h

/-- Witness for C5: the round-trip at the golden value 624485. -/
theorem uleb128_roundtrip_witness :
    624485 < U32 ∧
    uleb128 (encodeUleb128 624485) = some (624485, (encodeUleb128 624485).length) :=
  ⟨by norm_num [U32], uleb128_roundtrip.1 624485 (by norm_num [U32])⟩

/-! ## C6: ULEB128 decoder consumption and over-long inputs -/

/-- Counterexample to C6.  On five continuation bytes the decoder does
not fail with `EBadULEB`: it reads a sixth byte, returns normally
(value 0, since the sixth byte's bits are shifted past the 32-bit
width), and reports six consumed bytes — more than the five the claim
allows.  The `unpackUleb128` codec wrapper likewise returns a `nil`
error. -/
theorem uleb128_overlong_consumes_six :
    uleb128 [0x80, 0x80, 0x80, 0x80, 0x80, 0x00] = some (0, 6) ∧
    ¬ 6 ≤ 5 ∧
    unpackUleb128C [0x80, 0x80, 0x80, 0x80, 0x80, 0x00] FieldVal.vPtr
      = some (6, none, FieldVal.vNat 0) := by
  refine ⟨by decide, by decide, by decide⟩

/-- C6 as amended.  The ULEB128 decoder consumes at most six bytes:
after five continuation bytes it reads one further byte (whose payload
is shifted beyond the 32-bit width, contributing 0) and returns
normally; no `EBadULEB` error exists in the code and the codec wrapper
always reports a `nil` error. -/
theorem uleb128_consumes_at_most_six :
    ∀ data : List Nat, (uleb128 data).elim True (fun r => r.2 ≤ 6) := by
  intro data
  exact uleb128Aux_consumed_le 5 0 0 data (by omega)

/-! ## C4: the string reader -/

/-- C4 is a code bug.  On the string-data item
`[0x01, 0xC2, 0xA3, 0x00]` (ULEB128 `utf16_size` 1, the two MUTF-8
bytes of U+00A3, a 0x00 terminator), `str` does not read until the
0x00 terminator and does not advance past it: it uses the decoded
`utf16_size` as the byte length, returning the single byte `0xC2` and
a consumed count of 1 (the size prefix only), instead of the bytes
`[0xC2, 0xA3]` and a consumed count of 4 as the claim requires. -/
theorem str_uses_utf16_size_as_byte_length :
    str [0x01, 0xC2, 0xA3, 0x00] = some ([0xC2], 1) ∧
    ([0xC2] : List Nat) ≠ [0xC2, 0xA3] ∧ (1 : Nat) ≠ 4 := by
  refine ⟨by decide, by decide, by decide⟩

/-! ## C7: codec failures inside Unpack -/

/-- Counterexample to C7.  When a codec fails, `Unpack` does not abort
with the codec's error: the `byte` codec invoked on a non-array field
returns `(0, "Invalid field")`, yet `Unpack` discards the error
(`length, _ := p(...)`), continues, and returns `(0, nil)` with the
record as its final (here unchanged) state rather than discarding it. -/
theorem unpack_ignores_codec_error :
    unpackByteArrayC [] (FieldVal.vNat 7)
      = some (0, some GoError.invalidField, FieldVal.vNat 7) ∧
    UnpackGo builtinPacks [] 0 [("byte", FieldVal.vNat 7)]
      = some (0, none, [("byte", FieldVal.vNat 7)]) := by
  refine ⟨by decide, by decide⟩

/-- C7 as amended.  `Unpack` ignores codec errors entirely — it
advances by the codec's returned length and moves to the next field.
The only error `Unpack` itself can return is its own "Not implemented
type" error, produced when a field's tag (other than `-`) names no
registered codec; the fields already decoded keep their decoded values
in that case. -/
theorem unpack_error_is_nil_or_not_implemented :
    ∀ (registry : List (String × Codec)) (b : List Nat) (offset : Nat)
      (fields : List (String × FieldVal)),
      (UnpackGo registry b offset fields).elim True
        (fun r => r.2.1 = none ∨ r.2.1 = some GoError.notImplemented) := by
  intro registry b offset fields
  induction fields generalizing offset with
  | nil => simp [UnpackGo]
  | cons hd tl ih =>
      obtain ⟨tag, v⟩ := hd
      simp only [UnpackGo]
      by_cases htag : tag = "-"
      · rw [if_pos htag]
        cases hrec : UnpackGo registry b offset tl with
        | none => simp
        | some r =>
            have := ih offset
            rw [hrec] at this
            simpa using this
      · rw [if_neg htag]
        cases hfind : registry.find? (fun p => p.1 == tag) with
        | none => simp
        | some p =>
            simp only
            by_cases hoff : offset ≤ b.length
            · rw [if_pos hoff]
              cases hc : p.2 (b.drop offset) v with
              | none => simp
              | some t =>
                  obtain ⟨len, _err, v'⟩ := t
                  simp only
                  cases hrec : UnpackGo registry b (offset + len) tl with
                  | none => simp
                  | some r =>
                      have := ih (offset + len)
                      rw [hrec] at this
                      simpa using this
            · rw [if_neg hoff]
              simp

/-! ## C10: fields not named by a registered codec are never written -/

/-- C10.  `Unpack` writes only the fields whose pack tag names a
registered codec: any field whose tag is `-`, or whose tag has no
entry in the registry, holds exactly the value it had before the call
(in particular the `dex` back-pointers, the resolved `Field`/`Method`
members of `EncodedField`/`EncodedMethod`, and `EncodedValue`'s
`ValueType` and `Data`, all tagged `-`). -/
theorem unpack_preserves_untagged_fields :
    ∀ (registry : List (String × Codec)) (b : List Nat) (offset : Nat)
      (fields : List (String × FieldVal)) (res : Nat × Option GoError × List (String × FieldVal)),
      UnpackGo registry b offset fields = some res →
      ∀ (k : Nat) (tv : String × FieldVal), fields.get? k = some tv →
        (tv.1 = "-" ∨ registry.find? (fun q => q.1 == tv.1) = none) →
        res.2.2.get? k = some tv := by
  intro registry b offset fields
  induction fields generalizing offset with
  | nil =>
      intro res hres k tv hk
      simp at hk
  | cons hd tl ih =>
      intro res hres k tv hk hskip
      obtain ⟨tag, v⟩ := hd
      simp only [UnpackGo] at hres
      by_cases htag : tag = "-"
      · rw [if_pos htag] at hres
        cases hrec : UnpackGo registry b offset tl with
        | none => rw [hrec] at hres; simp at hres
        | some r =>
            rw [hrec] at hres
            simp only [Option.map_some'] at hres
            cases hres
            cases k with
            | zero => simpa using hk
            | succ k =>
                simp only [List.get?_cons_succ] at hk ⊢
                exact ih offset r hrec k tv hk hskip
      · rw [if_neg htag] at hres
        cases hfind : registry.find? (fun p => p.1 == tag) with
        | none =>
            rw [hfind] at hres
            simp only [Option.some_inj] at hres
            cases hres
            simpa using hk
        | some p =>
            rw [hfind] at hres
            simp only at hres
            by_cases hoff : offset ≤ b.length
            · rw [if_pos hoff] at hres
              cases hc : p.2 (b.drop offset) v with
              | none => rw [hc] at hres; simp at hres
              | some t =>
                  rw [hc] at hres
                  obtain ⟨len, _err, v'⟩ := t
                  simp only at hres
                  cases hrec : UnpackGo registry b (offset + len) tl with
                  | none => rw [hrec] at hres; simp at hres
                  | some r =>
                      rw [hrec] at hres
                      simp only [Option.map_some'] at hres
                      cases hres
                      cases k with
                      | zero =>
                          -- the head field is registered and not "-",
                          -- contradicting the skip hypothesis
                          simp only [List.get?_cons_zero, Option.some_inj] at hk
                          cases hk
                          rcases hskip with h | h
                          · exact absurd h htag
                          · rw [h] at hfind; cases hfind
                      | succ k =>
                          simp only [List.get?_cons_succ] at hk ⊢
                          exact ih (offset + len) r hrec k tv hk hskip
            · rw [if_neg hoff] at hres
              simp at hres

/-- Witness for C10: the `EncodedField` descriptor over the bytes
`[3, 7]` — its two `pack:"-"` fields (`dex`, `Field`) are returned
unchanged while the two `uleb128` fields are written — and the
`EncodedValue` descriptor, all of whose fields are `pack:"-"` and all
of which are returned unchanged. -/
theorem unpack_preserves_untagged_fields_witness :
    UnpackGo builtinPacks [3, 7] 0 encodedFieldFields
      = some (2, none,
          [("-", FieldVal.vPtr), ("-", FieldVal.vPtr),
           ("uleb128", FieldVal.vNat 3), ("uleb128", FieldVal.vNat 7)]) ∧
    (some (2, none,
          [("-", FieldVal.vPtr), ("-", FieldVal.vPtr),
           ("uleb128", FieldVal.vNat 3), ("uleb128", FieldVal.vNat 7)])
        : Option (Nat × Option GoError × List (String × FieldVal))).elim True
      (fun r => r.2.2.get? 1 = some ("-", FieldVal.vPtr)) ∧
    UnpackGo builtinPacks [9] 0 encodedValueFields
      = some (0, none, encodedValueFields) ∧
    (UnpackGo builtinPacks [9] 0 encodedValueFields).elim True
      (fun r => r.2.2.get? 2 = some ("-", FieldVal.vBytes [])) := by
  have h1 : UnpackGo builtinPacks [3, 7] 0 encodedFieldFields
      = some (2, none,
          [("-", FieldVal.vPtr), ("-", FieldVal.vPtr),
           ("uleb128", FieldVal.vNat 3), ("uleb128", FieldVal.vNat 7)]) := by decide
  have h2 : UnpackGo builtinPacks [9] 0 encodedValueFields
      = some (0, none, encodedValueFields) := by decide
  refine ⟨h1, ?_, h2, ?_⟩
  · have := unpack_preserves_untagged_fields builtinPacks [3, 7] 0 encodedFieldFields
      _ h1 1 ("-", FieldVal.vPtr) (by decide) (Or.inl rfl)
    simp only [Option.elim_some]
    exact this
  · have := unpack_preserves_untagged_fields builtinPacks [9] 0 encodedValueFields
      _ h2 2 ("-", FieldVal.vBytes []) (by decide) (Or.inl rfl)
    rw [h2]
    simpa using this

/-! ## C3: differential index reconstruction -/

/-- The field-list loop resolves the `k`-th element's `Field` by
looking up the running index: the accumulator at entry plus the sum of
the first `k+1` decoded diffs. -/
theorem encodedFieldsLoop_resolves (n : Nat) :
    ∀ (flds : List FieldIdItem) (data : List Nat) (fieldIdx offset : Nat)
      (efs : List EncodedField) (off2 : Nat),
      encodedFieldsLoop flds data fieldIdx offset n = some (efs, off2) →
      ∀ (k : Nat) (ef : EncodedField), efs.get? k = some ef →
        flds.get? (fieldIdx + ((efs.take (k + 1)).map EncodedField.FieldIdxDiff).sum)
          = some ef.Field := by
  induction n with
  | zero =>
      intro flds data fieldIdx offset efs off2 hloop k ef hk
      simp only [encodedFieldsLoop, Option.some_inj] at hloop
      cases hloop
      simp at hk
  | succ n ih =>
      intro flds data fieldIdx offset efs off2 hloop k ef hk
      simp only [encodedFieldsLoop] at hloop
      cases hu : UnpackGo builtinPacks data offset encodedFieldFields with
      | none => rw [hu] at hloop; simp at hloop
      | some t =>
          rw [hu] at hloop
          obtain ⟨offset', err, r⟩ := t
          simp only at hloop
          cases hf : flds.get? (fieldIdx + natAt r 2) with
          | none => rw [hf] at hloop; simp at hloop
          | some f =>
              rw [hf] at hloop
              simp only at hloop
              cases hrec : encodedFieldsLoop flds data (fieldIdx + natAt r 2) offset' n with
              | none => rw [hrec] at hloop; simp at hloop
              | some p =>
                  rw [hrec] at hloop
                  simp only [Option.map_some', Option.some_inj] at hloop
                  cases hloop
                  cases k with
                  | zero =>
                      simp only [List.get?_cons_zero, Option.some_inj] at hk
                      cases hk
                      simpa using hf
                  | succ k =>
                      simp only [List.get?_cons_succ] at hk
                      have := ih flds data (fieldIdx + natAt r 2) offset' p.1 p.2 (by
                        rw [hrec]) k ef hk
                      simp only [List.take_succ_cons, List.map_cons, List.sum_cons]
                      rw [← Nat.add_assoc]
                      exact this

/-- The method-list loop resolves the `k`-th element's `Method` by the
running index: the accumulator at entry plus the sum of the first
`k+1` decoded diffs. -/
theorem encodedMethodsLoop_resolves (n : Nat) :
    ∀ (mths : List MethodIdItem) (data : List Nat) (methodIdx offset : Nat)
      (ems : List EncodedMethod) (off2 : Nat),
      encodedMethodsLoop mths data methodIdx offset n = some (ems, off2) →
      ∀ (k : Nat) (em : EncodedMethod), ems.get? k = some em →
        mths.get? (methodIdx + ((ems.take (k + 1)).map EncodedMethod.MethodIdxDiff).sum)
          = some em.Method := by
  induction n with
  | zero =>
      intro mths data methodIdx offset ems off2 hloop k em hk
      simp only [encodedMethodsLoop, Option.some_inj] at hloop
      cases hloop
      simp at hk
  | succ n ih =>
      intro mths data methodIdx offset ems off2 hloop k em hk
      simp only [encodedMethodsLoop] at hloop
      cases hu : UnpackGo builtinPacks data offset encodedMethodFields with
      | none => rw [hu] at hloop; simp at hloop
      | some t =>
          rw [hu] at hloop
          obtain ⟨offset', err, r⟩ := t
          simp only at hloop
          cases hf : mths.get? (methodIdx + natAt r 2) with
          | none => rw [hf] at hloop; simp at hloop
          | some m =>
              rw [hf] at hloop
              simp only at hloop
              cases hrec : encodedMethodsLoop mths data (methodIdx + natAt r 2) offset' n with
              | none => rw [hrec] at hloop; simp at hloop
              | some p =>
                  rw [hrec] at hloop
                  simp only [Option.map_some', Option.some_inj] at hloop
                  cases hloop
                  cases k with
                  | zero =>
                      simp only [List.get?_cons_zero, Option.some_inj] at hk
                      cases hk
                      simpa using hf
                  | succ k =>
                      simp only [List.get?_cons_succ] at hk
                      have := ih mths data (methodIdx + natAt r 2) offset' p.1 p.2 (by
                        rw [hrec]) k em hk
                      simp only [List.take_succ_cons, List.map_cons, List.sum_cons]
                      rw [← Nat.add_assoc]
                      exact this

/-- C3.  In every decoded class-data item, each of the four lists
resolves each element's absolute field/method index as the running sum
of the ULEB128 diff fields within that list, the running index
starting at 0 independently for each of the four lists: the `k`-th
element's resolved `Field`/`Method` is the table entry at the sum of
the first `k+1` diffs of that list alone. -/
theorem classdata_resolves_diffs :
    ∀ (flds : List FieldIdItem) (mths : List MethodIdItem) (b : List Nat)
      (off : Nat) (cd : ClassDataItem),
      unpackClassDataItem flds mths b off = some cd →
      (∀ (k : Nat) (ef : EncodedField), cd.StaticFields.get? k = some ef →
         flds.get? (((cd.StaticFields.take (k + 1)).map EncodedField.FieldIdxDiff).sum)
           = some ef.Field) ∧
      (∀ (k : Nat) (ef : EncodedField), cd.InstanceFields.get? k = some ef →
         flds.get? (((cd.InstanceFields.take (k + 1)).map EncodedField.FieldIdxDiff).sum)
           = some ef.Field) ∧
      (∀ (k : Nat) (em : EncodedMethod), cd.DirectMethods.get? k = some em →
         mths.get? (((cd.DirectMethods.take (k + 1)).map EncodedMethod.MethodIdxDiff).sum)
           = some em.Method) ∧
      (∀ (k : Nat) (em : EncodedMethod), cd.VirtualMethods.get? k = some em →
         mths.get? (((cd.VirtualMethods.take (k + 1)).map EncodedMethod.MethodIdxDiff).sum)
           = some em.Method) := by
  intro flds mths b off cd hcd
  simp only [unpackClassDataItem, bind, Option.bind] at hcd
  cases hA : UnpackGo builtinPacks b off classDataCountFields with
  | none => rw [hA] at hcd; simp at hcd
  | some tA =>
      rw [hA] at hcd
      obtain ⟨oA, eA, rA⟩ := tA
      simp only at hcd
      cases h1 : encodedFieldsLoop flds (b.drop oA) 0 0 (natAt rA 0) with
      | none => rw [h1] at hcd; simp at hcd
      | some p1 =>
          rw [h1] at hcd
          simp only at hcd
          cases h2 : encodedFieldsLoop flds (b.drop (oA + p1.2)) 0 0 (natAt rA 1) with
          | none => rw [h2] at hcd; simp at hcd
          | some p2 =>
              rw [h2] at hcd
              simp only at hcd
              cases h3 : encodedMethodsLoop mths (b.drop (oA + p1.2 + p2.2)) 0 0 (natAt rA 2) with
              | none => rw [h3] at hcd; simp at hcd
              | some p3 =>
                  rw [h3] at hcd
                  simp only at hcd
                  cases h4 : encodedMethodsLoop mths (b.drop (oA + p1.2 + p2.2 + p3.2)) 0 0
                      (natAt rA 3) with
                  | none => rw [h4] at hcd; simp at hcd
                  | some p4 =>
                      rw [h4] at hcd
                      simp only [Option.some_inj] at hcd
                      cases hcd
                      refine ⟨?_, ?_, ?_, ?_⟩
                      · intro k ef hk
                        have := encodedFieldsLoop_resolves (natAt rA 0) flds (b.drop oA)
                          0 0 p1.1 p1.2 (by rw [h1]) k ef hk
                        simpa using this
                      · intro k ef hk
                        have := encodedFieldsLoop_resolves (natAt rA 1) flds
                          (b.drop (oA + p1.2)) 0 0 p2.1 p2.2 (by rw [h2]) k ef hk
                        simpa using this
                      · intro k em hk
                        have := encodedMethodsLoop_resolves (natAt rA 2) mths
                          (b.drop (oA + p1.2 + p2.2)) 0 0 p3.1 p3.2 (by rw [h3]) k em hk
                        simpa using this
                      · intro k em hk
                        have := encodedMethodsLoop_resolves (natAt rA 3) mths
                          (b.drop (oA + p1.2 + p2.2 + p3.2)) 0 0 p4.1 p4.2 (by rw [h4]) k em hk
                        simpa using this

/-- Witness for C3: the class-data bytes `cdBytes` (static diffs
`[3, 1, 5]`, instance diffs `[2, 1]`) decode to `cdEx`; the third
static field resolves at index `3 + 1 + 5 = 9` while the second
instance field resolves at `2 + 1 = 3`, exhibiting the independent
reset between lists. -/
theorem classdata_resolves_diffs_witness :
    unpackClassDataItem fldsEx [] cdBytes 0 = some cdEx ∧
    fldsEx.get? (((cdEx.StaticFields.take 3).map EncodedField.FieldIdxDiff).sum)
      = some (⟨0, 0, 9⟩ : FieldIdItem) ∧
    fldsEx.get? (((cdEx.InstanceFields.take 2).map EncodedField.FieldIdxDiff).sum)
      = some (⟨0, 0, 3⟩ : FieldIdItem) := by
  have hEq : unpackClassDataItem fldsEx [] cdBytes 0 = some cdEx := by decide
  have h := classdata_resolves_diffs fldsEx [] cdBytes 0 cdEx hEq
  refine ⟨hEq, ?_, ?_⟩
  · exact h.1 2 ⟨5, 0, ⟨0, 0, 9⟩⟩ (by decide)
  · exact h.2.1 1 ⟨1, 0, ⟨0, 0, 3⟩⟩ (by decide)

/-! ## C9: the recorded instruction lengths -/

/-- Counterexample to C9.  Two assigned opcodes record lengths outside
{1, 2, 3, 4, 5} that are not negative markers: `nop` (0x00) records 0
and `const-wide` (0x18) records 9. -/
theorem instruction_lengths_outside_claimed_range :
    (instructions 0x00).map Instruction.Length = some 0 ∧
    (instructions 0x18).map Instruction.Length = some 9 ∧
    ¬ ((0 : Int) = 1 ∨ (0 : Int) = 2 ∨ (0 : Int) = 3 ∨ (0 : Int) = 4 ∨
       (0 : Int) = 5 ∨ (0 : Int) < 0) ∧
    ¬ ((9 : Int) = 1 ∨ (9 : Int) = 2 ∨ (9 : Int) = 3 ∨ (9 : Int) = 4 ∨
       (9 : Int) = 5 ∨ (9 : Int) < 0) := by
  refine ⟨by rfl, by rfl, by decide, by decide⟩

set_option maxRecDepth 8192 in
/-- C9 as amended.  Every assigned opcode in the instruction table
records a length in {-1, 0, 1, 2, 3, 4, 5, 9}: the payload/variable
forms record the marker -1, `nop` records 0, the `const-wide` forms
record 9, and the rest record 1–5.  The decoding loop advances the
byte cursor by `1 + length` per instruction and re-checks it against
the end of the insns block before reading each opcode. -/
theorem instruction_lengths_range :
    ∀ op : Nat, (instructions op).elim True
      (fun ins => ins.Length = -1 ∨ ins.Length = 0 ∨ ins.Length = 1 ∨
        ins.Length = 2 ∨ ins.Length = 3 ∨ ins.Length = 4 ∨
        ins.Length = 5 ∨ ins.Length = 9) := by
  intro op
  cases hop : instructions op with
  | none => simp
  | some ins =>
      simp only [Option.elim_some]
      unfold instructions at hop
      rw [Option.map_eq_some'] at hop
      obtain ⟨p, hfind, hsnd⟩ := hop
      have hmem : p ∈ instructionTable := List.mem_of_find?_eq_some hfind
      have hall : instructionTable.all (fun q =>
          q.2.Length == -1 || q.2.Length == 0 || q.2.Length == 1 ||
          q.2.Length == 2 || q.2.Length == 3 || q.2.Length == 4 ||
          q.2.Length == 5 || q.2.Length == 9) = true := by rfl
      have hp := List.all_eq_true.mp hall p hmem
      rw [← hsnd]
      simpa [Bool.or_eq_true, beq_iff_eq, or_assoc] using hp

/-! ## C8: unknown opcodes in the disassembler -/

set_option maxRecDepth 8192 in
/-- Counterexample to C8.  On a method whose first insns byte is the
unassigned opcode 0x3E, the disassembler does not terminate the method
with `EUnknownOpcode` and does not surface a trailing error marker: it
silently breaks out of the loop and `Disassemble` returns the empty
instruction list with a `nil` error. -/
theorem disassemble_silent_on_unknown_opcode :
    instructions 0x3e = none ∧
    (mkDEX exB).b.get? 16 = some 0x3e ∧
    Disassemble (mkDEX exB) mEx = some ([], none) := by
  refine ⟨by rfl, by rfl, by rfl⟩

/-- Every exit of the decoding loop returns a `nil` error. -/
theorem disasmLoop_error_nil (d : DEXModel) (stop : Nat) :
    ∀ (fuel offset : Nat) (acc : List DecodedInsn),
      (disasmLoop d stop fuel offset acc).elim True (fun r => r.2 = none) := by
  intro fuel
  induction fuel with
  | zero =>
      intro offset acc
      simp only [disasmLoop]
      by_cases h : offset < stop
      · rw [if_pos h]; simp
      · rw [if_neg h]; simp
  | succ fuel ih =>
      intro offset acc
      simp only [disasmLoop]
      by_cases h : offset < stop
      · rw [if_pos h]
        cases d.b.get? offset with
        | none => simp
        | some code =>
            simp only
            cases instructions code with
            | none => simp
            | some ins =>
                simp only
                cases disasmStep d code ins (offset + 1) with
                | none => simp
                | some o =>
                    cases o with
                    | none => simp
                    | some suffix => exact ih _ _
      · rw [if_neg h]; simp

/-- C8 as amended.  When the disassembler encounters an opcode byte
that is not in the instruction table it silently stops decoding that
method (a bare `break`); `Disassemble` returns a `nil` error in every
case — no `EUnknownOpcode` and no trailing error marker exist — and
the rest of the model is unaffected, each `Disassemble` call being
independent of the others. -/
theorem disassemble_error_always_nil :
    ∀ (d : DEXModel) (m : EncodedMethod),
      (Disassemble d m).elim True (fun r => r.2 = none) := by
  intro d m
  simp only [Disassemble, bind, Option.bind]
  cases hsz : leUint32 d.b (m.CodeOffset + 12) with
  | none => simp
  | some size => exact disasmLoop_error_nil d _ _ _ _

/-! ## C1, C2: Parse and Open never produce errors -/

/-- When every field of a descriptor is either skipped (`-`) or names
a registered codec, `Unpack` cannot reach its "Not implemented type"
return and its error result is `nil`. -/
theorem unpackGo_registered_err_none :
    ∀ (registry : List (String × Codec)) (fields : List (String × FieldVal)),
      fields.all (fun p => p.1 == "-" || (registry.find? (fun q => q.1 == p.1)).isSome)
        = true →
      ∀ (b : List Nat) (offset : Nat) (r : Nat × Option GoError × List (String × FieldVal)),
        UnpackGo registry b offset fields = some r → r.2.1 = none := by
  intro registry fields
  induction fields with
  | nil =>
      intro _ b offset r hr
      simp only [UnpackGo, Option.some_inj] at hr
      cases hr; rfl
  | cons hd tl ih =>
      intro hall b offset r hr
      obtain ⟨tag, v⟩ := hd
      simp only [List.all_cons, Bool.and_eq_true] at hall
      obtain ⟨hhd, htl⟩ := hall
      simp only [UnpackGo] at hr
      by_cases htag : tag = "-"
      · rw [if_pos htag] at hr
        cases hrec : UnpackGo registry b offset tl with
        | none => rw [hrec] at hr; simp at hr
        | some r' =>
            rw [hrec] at hr
            simp only [Option.map_some', Option.some_inj] at hr
            cases hr
            exact ih htl b offset r' hrec
      · rw [if_neg htag] at hr
        cases hfind : registry.find? (fun p => p.1 == tag) with
        | none =>
            rw [hfind] at hr
            exfalso
            simp only [Bool.or_eq_true, beq_iff_eq] at hhd
            rcases hhd with h | h
            · exact htag h
            · rw [hfind] at h; simp at h
        | some p =>
            rw [hfind] at hr
            simp only at hr
            by_cases hoff : offset ≤ b.length
            · rw [if_pos hoff] at hr
              cases hc : p.2 (b.drop offset) v with
              | none => rw [hc] at hr; simp at hr
              | some t =>
                  rw [hc] at hr
                  obtain ⟨len, _err, v'⟩ := t
                  simp only at hr
                  cases hrec : UnpackGo registry b (offset + len) tl with
                  | none => rw [hrec] at hr; simp at hr
                  | some r' =>
                      rw [hrec] at hr
                      simp only [Option.map_some', Option.some_inj] at hr
                      cases hr
                      exact ih htl b (offset + len) r' hrec
            · rw [if_neg hoff] at hr
              simp at hr

/-- A table-loader loop over a fully registered descriptor returns a
`nil` error. -/
theorem readTableLoop_err_none {A : Type} (b : List Nat) (off stride : Nat)
    (fields : List (String × FieldVal)) (extract : List (String × FieldVal) → A)
    (hfields : fields.all
      (fun p => p.1 == "-" || (builtinPacks.find? (fun q => q.1 == p.1)).isSome) = true) :
    ∀ (n i : Nat) (r : List A × Option GoError),
      readTableLoop b off stride fields extract n i = some r → r.2 = none := by
  intro n
  induction n with
  | zero =>
      intro i r hr
      simp only [readTableLoop, Option.some_inj] at hr
      cases hr; rfl
  | succ n ih =>
      intro i r hr
      simp only [readTableLoop] at hr
      by_cases hs : off + stride * i ≤ b.length
      · rw [if_pos hs] at hr
        cases hu : UnpackGo builtinPacks (b.drop (off + stride * i)) 0 fields with
        | none => rw [hu] at hr; simp at hr
        | some t =>
            rw [hu] at hr
            obtain ⟨o, e, rec⟩ := t
            have he : e = none :=
              unpackGo_registered_err_none builtinPacks fields hfields _ 0 _ hu
            subst he
            simp only at hr
            cases hrec : readTableLoop b off stride fields extract n (i + 1) with
            | none => rw [hrec] at hr; simp at hr
            | some p =>
                rw [hrec] at hr
                simp only [Option.map_some', Option.some_inj] at hr
                cases hr
                exact ih (i + 1) p hrec
      · rw [if_neg hs] at hr
        simp at hr

/-- `readHeader` returns a `nil` error: every `Header` tag is `byte`
or `uint`, both registered. -/
theorem readHeaderT_err_none (b : List Nat) (h : Header) (e : Option GoError)
    (hr : readHeaderT b = some (h, e)) : e = none := by
  simp only [readHeaderT, Option.map_eq_some'] at hr
  obtain ⟨r, hu, heq⟩ := hr
  have := unpackGo_registered_err_none builtinPacks headerFields (by decide) b 0 r hu
  cases heq
  exact this

/-- C1 as amended.  `Parse` performs no header validation and never
returns an error: there is no code producing `EBadMagic` or
`EBadEndian` (or any other error) — every loader's error result is
`nil` — so any image either parses with a `nil` error or crashes on an
out-of-range access. -/
theorem parse_error_always_nil :
    ∀ b : List Nat, (Parse b).elim True (fun p => p.2 = none) := by
  intro b
  cases hh : readHeaderT b with
  | none => simp [Parse, hh]
  | some pe =>
      obtain ⟨h, e1⟩ := pe
      have he1 : e1 = none := readHeaderT_err_none b h e1 hh
      subst he1
      cases hs : readStringsT b h with
      | none => simp [Parse, hh, hs]
      | some strs =>
          cases ht : readTypesT b h with
          | none => simp [Parse, hh, hs, ht]
          | some tysr =>
              obtain ⟨tys, e2⟩ := tysr
              have he2 : e2 = none :=
                readTableLoop_err_none b h.TypeIdsOffset 4 typeIdFields _ (by decide)
                  h.TypeIdsSize 0 _ ht
              subst he2
              cases hp : readPrototypesT b h with
              | none => simp [Parse, hh, hs, ht, hp]
              | some ptsr =>
                  obtain ⟨pts, e3⟩ := ptsr
                  have he3 : e3 = none :=
                    readTableLoop_err_none b h.ProtosOffset 12 protoIdFields _ (by decide)
                      h.ProtosSize 0 _ hp
                  subst he3
                  cases hf : readFieldsT b h with
                  | none => simp [Parse, hh, hs, ht, hp, hf]
                  | some fldsr =>
                      obtain ⟨flds, e4⟩ := fldsr
                      have he4 : e4 = none :=
                        readTableLoop_err_none b h.FieldsOffset 8 fieldIdFields _ (by decide)
                          h.FieldsSize 0 _ hf
                      subst he4
                      cases hm : readMethodsT b h with
                      | none => simp [Parse, hh, hs, ht, hp, hf, hm]
                      | some mthsr =>
                          obtain ⟨mths, e5⟩ := mthsr
                          have he5 : e5 = none :=
                            readTableLoop_err_none b h.MethodIdsOffset 8 methodIdFields _
                              (by decide) h.MethodIdsSize 0 _ hm
                          subst he5
                          cases hc : classLoop flds mths b h.ClassDefsOffset h.ClassDefsSize 0 with
                          | none => simp [Parse, hh, hs, ht, hp, hf, hm, hc]
                          | some classes =>
                              simp [Parse, hh, hs, ht, hp, hf, hm, hc]

set_option maxRecDepth 8192 in
/-- Counterexample to C1.  The all-zero 112-byte image has a first
eight bytes different from the DEX magic, yet `Parse` returns no error
at all (in particular not `EBadMagic`); and the image whose
`endian_tag` field reads `0x78563412` is likewise parsed with no error
(in particular not `EBadEndian`).  No header check exists in the code:
`DEX_FILE_MAGIC` and `REVERSE_ENDIAN_CONSTANT` are declared but never
used. -/
theorem parse_accepts_bad_magic_and_reverse_endian :
    zeroImage.take 8 ≠ DEX_FILE_MAGIC ∧
    (Parse zeroImage).map (fun p => p.2) = some none ∧
    (readHeaderT endianImage).map (fun p => p.1.EndianTag) = some REVERSE_ENDIAN_CONSTANT ∧
    (Parse endianImage).map (fun p => p.2) = some none := by
  refine ⟨by decide, by rfl, by rfl, by rfl⟩

set_option maxRecDepth 8192 in
/-- C2 is a code bug.  `Open` as in part_001 opens the hard-coded name
`classes.dex` and ignores its `path` argument: called on `a.dex` (a
one-byte file) it returns the DEX built from the contents of
`classes.dex`.  Both revisions of `Open` also discard the result of
`dex.Parse()` and return a `nil` error unconditionally, so no parsing
error can ever reach the caller. -/
theorem open_hardcodes_path_and_discards_parse_result :
    fsEx "a.dex" = some [1] ∧
    (OpenAlt fsEx "a.dex").map (fun p => (p.1.map DEXModel.b, p.2))
      = some (some zeroImage, none) ∧
    zeroImage ≠ [1] ∧
    (Open fsEx "classes.dex").map (fun p => p.2) = some none := by
  refine ⟨by rfl, by rfl, by decide, by rfl⟩

end Godex
